import Mathlib

/-!
Shallow embedding of the factory-barcode-scanner application (`src/App.tsx`).
The file contains two variants of the app concatenated: a picker-based variant
(explicit `pdfFiles : PDFFile[]` list maintained through a document picker) and
a storage-access-framework (SAF) variant (re-listing a remembered directory).
JavaScript strings are modelled as `List Char`; `String.prototype.toLowerCase`
restricted to the ASCII range (the only characters relevant here) is `lowerChar`
mapped over the list; fallible platform calls are parameters (`fileExists`,
`launchOk`) or `Option` results.
-/

namespace FactoryScanner

/-- Model of JS `toLowerCase` on a single ASCII character: the letters
`A`–`Z` map to `a`–`z`, every other character is unchanged. -/
def lowerChar (c : Char) : Char :=
  match c with
  | 'A' => 'a' | 'B' => 'b' | 'C' => 'c' | 'D' => 'd' | 'E' => 'e'
  | 'F' => 'f' | 'G' => 'g' | 'H' => 'h' | 'I' => 'i' | 'J' => 'j'
  | 'K' => 'k' | 'L' => 'l' | 'M' => 'm' | 'N' => 'n' | 'O' => 'o'
  | 'P' => 'p' | 'Q' => 'q' | 'R' => 'r' | 'S' => 's' | 'T' => 't'
  | 'U' => 'u' | 'V' => 'v' | 'W' => 'w' | 'X' => 'x' | 'Y' => 'y'
  | 'Z' => 'z'
  | c => c

/-- Model of JS `s.toLowerCase()`. -/
def lowerStr (s : List Char) : List Char := s.map lowerChar

/-- Model of JS `s.endsWith(t)`: the last `t.length` characters of `s`
equal `t`. -/
def endsWith (s t : List Char) : Bool :=
  s.drop (s.length - t.length) == t

/-- The literal `".pdf"`. -/
def pdfSuffix : List Char := ['.', 'p', 'd', 'f']

/-- An entry of the picker-based variant's file index
(`interface PDFFile` in `App.tsx`). -/
structure PDFFile where
  name : List Char
  uri : List Char
  size : Nat
  barcode : List Char
deriving DecidableEq

/-- JS regex character class `[a-zA-Z0-9]`. -/
def isAlnumChar (c : Char) : Bool :=
  ('a' ≤ c && c ≤ 'z') || ('A' ≤ c && c ≤ 'Z') || ('0' ≤ c && c ≤ '9')

/-- JS regex test `/^[a-zA-Z0-9]+$/.test s`: `s` is a non-empty string of
ASCII letters and digits. -/
def testAlnum (s : List Char) : Bool :=
  !s.isEmpty && s.all isAlnumChar

/-- JS `filename.replace(/\.pdf$/i, "")`: if the filename ends
case-insensitively with `".pdf"`, drop those four characters, otherwise
return it unchanged. -/
def replacePdfExt (filename : List Char) : List Char :=
  if endsWith (lowerStr filename) pdfSuffix then
    filename.take (filename.length - 4)
  else filename

/-- `extractBarcodeFromFilename` from `App.tsx` (picker variant): strip one
trailing `".pdf"` (case-insensitively), and return the stem when it is a
non-empty alphanumeric string, `null` otherwise. -/
def extractBarcodeFromFilename (filename : List Char) : Option (List Char) :=
  let nameWithoutExt := replacePdfExt filename
  if testAlnum nameWithoutExt then some nameWithoutExt else none

/-- An asset returned by `DocumentPicker.getDocumentAsync`: `name` and `size`
may be absent (JS `undefined`). -/
structure PickedAsset where
  name : Option (List Char)
  uri : List Char
  size : Option Nat
deriving DecidableEq

/-- The literal `"unknown.pdf"`. -/
def unknownPdf : List Char :=
  ['u', 'n', 'k', 'n', 'o', 'w', 'n', '.', 'p', 'd', 'f']

/-- JS `asset.name || "unknown.pdf"`: an absent or empty name falls back to
`"unknown.pdf"`. -/
def assetFileName (a : PickedAsset) : List Char :=
  match a.name with
  | some n => if n.isEmpty then unknownPdf else n
  | none => unknownPdf

/-- The asset loop of `addPDFFiles` (picker variant): given the set of URIs
already in the list (built once, before the loop, as in the source), produce
the accepted new entries in order together with the duplicate and invalid
counters. -/
def processAssets (existingUris : List (List Char)) :
    List PickedAsset → List PDFFile × Nat × Nat
  | [] => ([], 0, 0)
  | a :: rest =>
    if existingUris.contains a.uri then
      let r := processAssets existingUris rest
      (r.1, r.2.1 + 1, r.2.2)
    else
      let fileName := assetFileName a
      match extractBarcodeFromFilename fileName with
      | some b =>
        let r := processAssets existingUris rest
        (⟨fileName, a.uri, a.size.getD 0, b⟩ :: r.1, r.2.1, r.2.2)
      | none =>
        let r := processAssets existingUris rest
        (r.1, r.2.1, r.2.2 + 1)

/-- `addPDFFiles` from `App.tsx` (picker variant), restricted to its pure
core: the updated `pdfFiles` list produced from the current list and the
picked assets (state is only written when at least one new file was
accepted; either way the resulting list is as below). -/
def addPDFFiles (pdfFiles : List PDFFile) (assets : List PickedAsset) :
    List PDFFile :=
  let existingUris := pdfFiles.map PDFFile.uri
  let newFiles := (processAssets existingUris assets).1
  if newFiles.isEmpty then pdfFiles else pdfFiles ++ newFiles

/-- `removePDFFile` from `App.tsx` (picker variant):
`pdfFiles.filter((file) => file.uri !== uri)`. -/
def removePDFFile (pdfFiles : List PDFFile) (uri : List Char) : List PDFFile :=
  pdfFiles.filter (fun f => f.uri != uri)

example : extractBarcodeFromFilename ['1', '2', '.', 'p', 'd', 'f'] = some ['1', '2'] := by decide
example : extractBarcodeFromFilename ['a', 'B', '.', 'P', 'D', 'F'] = some ['a', 'B'] := by decide
example : extractBarcodeFromFilename ['.', 'p', 'd', 'f'] = none := by decide
example : extractBarcodeFromFilename ['a', '.', 'b', '.', 'p', 'd', 'f'] = none := by decide
example : extractBarcodeFromFilename ['a', 'b', 'c'] = some ['a', 'b', 'c'] := by decide

/-! ## Persistence (AsyncStorage + JSON) -/

/-- A JSON value, the abstract result of `JSON.stringify` / argument of
`JSON.parse`. -/
inductive Json where
  | null
  | bool (b : Bool)
  | num (n : Nat)
  | str (s : List Char)
  | arr (xs : List Json)
  | obj (fields : List (List Char × Json))

/-- The literal `"name"`. -/
def nameKey : List Char := ['n', 'a', 'm', 'e']

/-- The literal `"uri"`. -/
def uriKey : List Char := ['u', 'r', 'i']

/-- The literal `"size"`. -/
def sizeKey : List Char := ['s', 'i', 'z', 'e']

/-- The literal `"barcode"`. -/
def barcodeKey : List Char := ['b', 'a', 'r', 'c', 'o', 'd', 'e']

/-- JSON serialization of one `PDFFile` object. -/
def encodePDFFile (f : PDFFile) : Json :=
  .obj [(nameKey, .str f.name), (uriKey, .str f.uri),
        (sizeKey, .num f.size), (barcodeKey, .str f.barcode)]

/-- `JSON.stringify(pdfFiles)`: the JSON array of the serialized entries. -/
def jsonStringify (files : List PDFFile) : Json :=
  .arr (files.map encodePDFFile)

/-- Look up a field of a JSON object. -/
def lookupField (fields : List (List Char × Json)) (k : List Char) : Option Json :=
  (fields.find? (fun p => p.1 == k)).map Prod.snd

/-- Read a string field of a JSON object. -/
def lookupStrField (fields : List (List Char × Json)) (k : List Char) :
    Option (List Char) :=
  match lookupField fields k with
  | some (.str s) => some s
  | _ => none

/-- Read a numeric field of a JSON object. -/
def lookupNumField (fields : List (List Char × Json)) (k : List Char) : Option Nat :=
  match lookupField fields k with
  | some (.num n) => some n
  | _ => none

/-- Deserialization (`JSON.parse` followed by the `as PDFFile[]` element view)
of one entry. -/
def decodePDFFile : Json → Option PDFFile
  | .obj fields =>
    match lookupStrField fields nameKey, lookupStrField fields uriKey,
          lookupNumField fields sizeKey, lookupStrField fields barcodeKey with
    | some n, some u, some s, some b => some ⟨n, u, s, b⟩
    | _, _, _, _ => none
  | _ => none

/-- Deserialization of the stored list. -/
def decodeFiles : Json → Option (List PDFFile)
  | .arr xs => xs.mapM decodePDFFile
  | _ => none

/-- `loadPDFFiles` from `App.tsx` (picker variant): read the storage key,
parse it, keep the entries whose file still exists, and rewrite storage only
when some entry was dropped.  Returns the resulting `pdfFiles` state and the
resulting storage content.  An absent key leaves the initial empty state; a
parse failure is caught and leaves state and storage unchanged. -/
def loadPDFFiles (storage : Option Json) (fileExists : List Char → Bool) :
    List PDFFile × Option Json :=
  match storage with
  | none => ([], none)
  | some saved =>
    match decodeFiles saved with
    | none => ([], some saved)
    | some files =>
      let validFiles := files.filter (fun f => fileExists f.uri)
      (validFiles,
        if validFiles.length ≠ files.length then some (jsonStringify validFiles)
        else some saved)

/-! ## Lookup and open (picker variant) -/

/-- The case-insensitive barcode comparison of `searchAndOpenPDF`:
`file.barcode.toLowerCase() === barcode.toLowerCase()`. -/
def barcodeMatches (fileBarcode scannedBarcode : List Char) : Bool :=
  lowerStr fileBarcode == lowerStr scannedBarcode

/-- The lookup inside `searchAndOpenPDF` (picker variant):
`pdfFiles.find((file) => ...)`. -/
def findMatchingFile (pdfFiles : List PDFFile) (barcode : List Char) :
    Option PDFFile :=
  pdfFiles.find? (fun f => barcodeMatches f.barcode barcode)

/-- The user-visible outcome of one `searchAndOpenPDF` run. -/
inductive ScanOutcome where
  | opened (uri : List Char)
  | alertNoPdfs
  | alertNotFound
  | alertFileGone (uri : List Char)
  | alertOpenError
deriving DecidableEq

/-- Whether the outcome is a successful open. -/
def ScanOutcome.isOpened : ScanOutcome → Bool
  | .opened _ => true
  | _ => false

/-- `searchAndOpenPDF` from `App.tsx` (picker variant).  `fileExists` models
`FileSystem.getInfoAsync(...).exists` and `launchOk` models whether
`IntentLauncher.startActivityAsync` succeeds.  Returns the URI handed to the
intent launcher (if any) together with the outcome. -/
def searchAndOpenPDF (pdfFiles : List PDFFile) (barcode : List Char)
    (fileExists : List Char → Bool) (launchOk : Bool) :
    Option (List Char) × ScanOutcome :=
  if pdfFiles.isEmpty then (none, .alertNoPdfs)
  else
    match findMatchingFile pdfFiles barcode with
    | some f =>
      if fileExists f.uri then
        (some f.uri, if launchOk then .opened f.uri else .alertOpenError)
      else (none, .alertFileGone f.uri)
    | none => (none, .alertNotFound)

/-- The state touched by a `searchAndOpenPDF` run in the picker variant. -/
structure SearchState where
  pdfFiles : List PDFFile
  storage : Option Json
  isProcessing : Bool

/-- `searchAndOpenPDF` (picker variant) as a state transformer: the early
return on an empty list leaves the state untouched; every other path sets
`isProcessing` and clears it in the `finally` block.  No path writes
`pdfFiles` or the persisted serialization. -/
def searchAndOpenStep (st : SearchState) (barcode : List Char)
    (fileExists : List Char → Bool) (launchOk : Bool) :
    SearchState × ScanOutcome :=
  if st.pdfFiles.isEmpty then (st, .alertNoPdfs)
  else
    let r := searchAndOpenPDF st.pdfFiles barcode fileExists launchOk
    ({ st with isProcessing := false }, r.2)

/-! ## SAF variant -/

/-- The literal `"%2F"`. -/
def pct2F : List Char := ['%', '2', 'F']

/-- JS `uri.lastIndexOf("%2F")`, as an `Option` index. -/
def lastIndexOf2F : List Char → Option Nat
  | [] => none
  | c :: rest =>
    match lastIndexOf2F rest with
    | some i => some (i + 1)
    | none => if pct2F.isPrefixOf (c :: rest) then some 0 else none

/-- `getStringAfterLastSlash` from `App.tsx` (SAF variant): the substring
after the last `"%2F"`, or the whole URI when none occurs. -/
def getStringAfterLastSlash (uri : List Char) : List Char :=
  match lastIndexOf2F uri with
  | some i => uri.drop (i + 3)
  | none => uri

/-- The filter predicate of the SAF `searchAndOpenPDF`:
the URI's last segment, lowercased, equals `barcode.toLowerCase() + ".pdf"`. -/
def safMatchesBarcode (barcode uri : List Char) : Bool :=
  lowerStr (getStringAfterLastSlash uri) == (lowerStr barcode ++ pdfSuffix)

/-- `loadPDFFilesFromDirectory` from `App.tsx` (SAF variant): the directory
listing is filtered to `.pdf` URIs for the log message, but the *unfiltered*
listing is what `setPdfFiles` stores.  Returns the new `pdfFiles` state and
the logged PDF count. -/
def loadPDFFilesFromDirectory (files : List (List Char)) :
    List (List Char) × Nat :=
  let pdfFiles := files.filter (fun uri => endsWith (lowerStr uri) pdfSuffix)
  (files, pdfFiles.length)

/-- `searchAndOpenPDF` from `App.tsx` (SAF variant): guard on the granted
directory permission and a non-empty listing, filter by
`safMatchesBarcode`, and hand `matchingFiles[0]` to the intent launcher.
Returns the URI handed to the launcher, if any. -/
def searchAndOpenPDFSaf (granted : Bool) (pdfFiles : List (List Char))
    (barcode : List Char) : Option (List Char) :=
  if !granted || pdfFiles.isEmpty then none
  else
    match pdfFiles.filter (safMatchesBarcode barcode) with
    | f :: _ => some f
    | [] => none

/-! ## Scan handler -/

/-- The component state read and written by `handleBarCodeScanned`
(both variants have the same gating logic). -/
structure ScanHandlerState where
  scanned : Bool
  isProcessing : Bool
  lastScan : Option (List Char)

/-- `handleBarCodeScanned` from `App.tsx`: ignore the scan while `scanned`
or `isProcessing` is set, ignore any payload whose length is not 14, and
otherwise record the scan and query the index with `data.substring(0, 8)`.
Returns the new state and the lookup key passed to `searchAndOpenPDF`
(`none` when no lookup is performed). -/
def handleBarCodeScanned (st : ScanHandlerState) (data : List Char) :
    ScanHandlerState × Option (List Char) :=
  if st.scanned || st.isProcessing then (st, none)
  else if data.length ≠ 14 then (st, none)
  else ({ st with scanned := true, lastScan := some data }, some (data.take 8))

/-! ## Render state machines (permission gate) -/

/-- The screen the `App` component renders. -/
inductive Screen where
  | loading
  | permissionPending
  | permissionDenied
  | setup
  | main (cameraShown : Bool) (handlerAttached : Bool)
deriving DecidableEq

/-- Whether the rendered screen has `onBarcodeScanned` wired to
`handleBarCodeScanned`. -/
def scanHandlerAttached : Screen → Bool
  | .main _ h => h
  | _ => false

/-- The `App` state fields that decide which screen is rendered
(picker variant). -/
structure AppState where
  isLoading : Bool
  hasPermission : Option Bool
  pdfFiles : List PDFFile
  isManaging : Bool
  scanned : Bool

/-- The render decision chain of the picker-variant `App`: loading screen,
then the permission gate, then the empty-list setup screen, then the main
screen, whose camera is shown only outside file management and whose
`onBarcodeScanned` is `undefined` while `scanned` is set. -/
def render (st : AppState) : Screen :=
  if st.isLoading then .loading
  else
    match st.hasPermission with
    | none => .permissionPending
    | some false => .permissionDenied
    | some true =>
      if st.pdfFiles.isEmpty then .setup
      else .main (!st.isManaging) (!st.isManaging && !st.scanned)

/-- `FileSystem.StorageAccessFramework.requestDirectoryPermissionsAsync`
result, as persisted by the SAF variant. -/
structure DirectoryPermission where
  granted : Bool
  directoryUri : List Char
deriving DecidableEq

/-- The `App` state fields that decide which screen is rendered
(SAF variant). -/
structure AppStateSaf where
  isLoading : Bool
  hasPermission : Option Bool
  directoryPermission : Option DirectoryPermission
  scanned : Bool

/-- JS `directoryPermission?.granted`, coerced to the truth of the render
guard `!directoryPermission?.granted`. -/
def dirGranted (dp : Option DirectoryPermission) : Bool :=
  match dp with
  | some d => d.granted
  | none => false

/-- The render decision chain of the SAF-variant `App`: loading screen, then
the permission gate, then the folder-selection setup screen, then the main
screen with the camera always shown and `onBarcodeScanned` `undefined`
while `scanned` is set. -/
def renderSaf (st : AppStateSaf) : Screen :=
  if st.isLoading then .loading
  else
    match st.hasPermission with
    | none => .permissionPending
    | some false => .permissionDenied
    | some true =>
      if !dirGranted st.directoryPermission then .setup
      else .main true (!st.scanned)

/-! ## Helper lemmas -/

theorem endsWith_iff (s t : List Char) :
    endsWith s t = true ↔ ∃ r, s = r ++ t := by
  unfold endsWith
  rw [beq_iff_eq]
  constructor
  · intro h
    refine ⟨s.take (s.length - t.length), ?_⟩
    have hs := List.take_append_drop (s.length - t.length) s
    rw [h] at hs
    exact hs.symm
  · rintro ⟨r, rfl⟩
    have hlen : (r ++ t).length - t.length = r.length := by
      simp [List.length_append]
    rw [hlen, List.drop_left]

theorem lowerChar_eq_dot {c : Char} (h : lowerChar c = '.') : c = '.' := by
  unfold lowerChar at h
  split at h <;> first
    | exact absurd h (by decide)
    | exact h

theorem testAlnum_iff (s : List Char) :
    testAlnum s = true ↔ s ≠ [] ∧ s.all isAlnumChar = true := by
  unfold testAlnum
  rw [Bool.and_eq_true]
  constructor
  · rintro ⟨h1, h2⟩
    refine ⟨?_, h2⟩
    intro hnil
    subst hnil
    simp at h1
  · rintro ⟨h1, h2⟩
    refine ⟨?_, h2⟩
    simp [List.isEmpty_iff, h1]

theorem find?_eq_some_first {α : Type} (p : α → Bool) (l : List α) (x : α) :
    l.find? p = some x ↔
      p x = true ∧ ∃ l₁ l₂, l = l₁ ++ x :: l₂ ∧ ∀ y ∈ l₁, p y = false := by
  induction l with
  | nil =>
    simp only [List.find?_nil]
    constructor
    · intro h; cases h
    · rintro ⟨-, l₁, l₂, h, -⟩
      exact absurd h (by simp)
  | cons a l ih =>
    cases h : p a with
    | true =>
      rw [List.find?_cons_of_pos l h]
      constructor
      · intro hax
        have : a = x := by injection hax
        subst this
        exact ⟨h, [], l, rfl, by simp⟩
      · rintro ⟨hx, l₁, l₂, heq, hall⟩
        cases l₁ with
        | nil =>
          have : a = x := by injection heq
          rw [this]
        | cons b l₁ =>
          have hab : a = b := by injection heq
          have : p b = false := hall b (by simp)
          rw [hab] at h
          rw [h] at this
          cases this
    | false =>
      rw [List.find?_cons_of_neg l (by simp [h])]
      rw [ih]
      constructor
      · rintro ⟨hx, l₁, l₂, rfl, hall⟩
        refine ⟨hx, a :: l₁, l₂, rfl, ?_⟩
        intro y hy
        rcases List.mem_cons.mp hy with rfl | hy
        · exact h
        · exact hall y hy
      · rintro ⟨hx, l₁, l₂, heq, hall⟩
        cases l₁ with
        | nil =>
          have : a = x := by injection heq
          subst this
          rw [hx] at h
          cases h
        | cons b l₁ =>
          have hab : a = b := by injection heq
          have htail : l = l₁ ++ x :: l₂ := by injection heq with _ h2
          exact ⟨hx, l₁, l₂, htail, fun y hy => hall y (by simp [hy])⟩

theorem filter_head?_eq_find? {α : Type} (p : α → Bool) (l : List α) :
    (l.filter p).head? = l.find? p := by
  induction l with
  | nil => rfl
  | cons a l ih =>
    cases h : p a <;>
      simp [List.filter_cons, List.find?_cons, h, ih]

/-- C1: the scan handler acts only on payloads of exactly 14 characters; the
lookup key is exactly the first 8 characters of the payload; any payload of
another length is dropped without a lookup or a state change. -/
theorem scan_handler_gates_on_payload_length
    (st : ScanHandlerState) (data : List Char) :
    (data.length ≠ 14 → handleBarCodeScanned st data = (st, none)) ∧
    (∀ k, (handleBarCodeScanned st data).2 = some k →
       data.length = 14 ∧ k = data.take 8) ∧
    (st.scanned = false → st.isProcessing = false → data.length = 14 →
       (handleBarCodeScanned st data).2 = some (data.take 8)) := by
  unfold handleBarCodeScanned
  refine ⟨?_, ?_, ?_⟩
  · intro hlen
    split <;> simp [hlen]
  · intro k hk
    split at hk
    · cases hk
    · split at hk
      · cases hk
      · injection hk with hk
        constructor
        · omega
        · exact hk.symm
  · intro hs hp hlen
    rw [hs, hp]
    simp [hlen]

theorem scan_handler_gates_on_payload_length_witness :
    (handleBarCodeScanned ⟨false, false, none⟩
        ['0', '1', '2', '3', '4', '5', '6', '7', '8', '9', '0', '1', '2', '3']).2 =
      some ['0', '1', '2', '3', '4', '5', '6', '7'] := by
  have h := (scan_handler_gates_on_payload_length ⟨false, false, none⟩
    ['0', '1', '2', '3', '4', '5', '6', '7', '8', '9', '0', '1', '2', '3']).2.2
    rfl rfl (by decide)
  simpa using h

/-- A sample index entry used by the concrete witnesses. -/
def demoFile : PDFFile :=
  ⟨['A', 'B', 'C', 'D', '1', '2', '3', '4', '.', 'p', 'd', 'f'],
   ['u', '1'], 10, ['A', 'B', 'C', 'D', '1', '2', '3', '4']⟩

/-- A sample 8-character lookup key (the lowercased form of `demoFile`'s
barcode, to exercise the case-insensitive comparison). -/
def demoKey : List Char := ['a', 'b', 'c', 'd', '1', '2', '3', '4']

/-- C3: in both variants the lookup is the first entry, in list order, whose
stored stem matches the key case-insensitively, and it is empty exactly when
no entry matches. -/
theorem lookup_is_first_case_insensitive_match (l : List PDFFile)
    (lsaf : List (List Char)) (key : List Char) (hkey : key.length = 8) :
    (findMatchingFile l key = none ↔
       ∀ f ∈ l, barcodeMatches f.barcode key = false) ∧
    (∀ f, findMatchingFile l key = some f ↔
       barcodeMatches f.barcode key = true ∧
       ∃ l₁ l₂, l = l₁ ++ f :: l₂ ∧
         ∀ g ∈ l₁, barcodeMatches g.barcode key = false) ∧
    ((lsaf.filter (safMatchesBarcode key)).head? = none ↔
       ∀ u ∈ lsaf, safMatchesBarcode key u = false) ∧
    (∀ u, (lsaf.filter (safMatchesBarcode key)).head? = some u ↔
       safMatchesBarcode key u = true ∧
       ∃ l₁ l₂, lsaf = l₁ ++ u :: l₂ ∧
         ∀ v ∈ l₁, safMatchesBarcode key v = false) := by
  refine ⟨?_, ?_, ?_, ?_⟩
  · rw [findMatchingFile, List.find?_eq_none]
    constructor
    · intro h f hf
      exact Bool.not_eq_true _ ▸ h f hf
    · intro h f hf
      rw [h f hf]
      simp
  · intro f
    exact find?_eq_some_first _ l f
  · rw [filter_head?_eq_find?, List.find?_eq_none]
    constructor
    · intro h u hu
      exact Bool.not_eq_true _ ▸ h u hu
    · intro h u hu
      rw [h u hu]
      simp
  · intro u
    rw [filter_head?_eq_find?]
    exact find?_eq_some_first _ lsaf u

theorem lookup_is_first_case_insensitive_match_witness :
    findMatchingFile [demoFile] demoKey = some demoFile :=
  (((lookup_is_first_case_insensitive_match [demoFile] [] demoKey
      (by decide)).2.1) demoFile).mpr
    ⟨by decide, [], [], rfl, by decide⟩

theorem decodePDFFile_encodePDFFile (f : PDFFile) :
    decodePDFFile (encodePDFFile f) = some f := rfl

theorem decodeFiles_jsonStringify (l : List PDFFile) :
    decodeFiles (jsonStringify l) = some l := by
  induction l with
  | nil => rfl
  | cons f l ih =>
    show (encodePDFFile f :: l.map encodePDFFile).mapM decodePDFFile = some (f :: l)
    rw [List.mapM_cons]
    have ihm : (l.map encodePDFFile).mapM decodePDFFile = some l := ih
    rw [decodePDFFile_encodePDFFile, ihm]
    rfl

/-- C4: persisting the file index and loading it back is the identity: when
every referenced file still exists, loading the serialized list restores
exactly the same entries in the same order and leaves the stored
serialization untouched. -/
theorem persistence_round_trip (l : List PDFFile)
    (fileExists : List Char → Bool)
    (h : ∀ f ∈ l, fileExists f.uri = true) :
    loadPDFFiles (some (jsonStringify l)) fileExists =
      (l, some (jsonStringify l)) := by
  have hf : l.filter (fun f => fileExists f.uri) = l :=
    List.filter_eq_self.mpr h
  simp only [loadPDFFiles, decodeFiles_jsonStringify, hf, ne_eq,
    not_true_eq_false, if_false]

theorem persistence_round_trip_witness :
    loadPDFFiles (some (jsonStringify [demoFile])) (fun _ => true) =
      ([demoFile], some (jsonStringify [demoFile])) :=
  persistence_round_trip [demoFile] (fun _ => true) (by intro f _; rfl)

/-- C5: whenever the lookup finds a match and the file still exists, the
intent launcher receives exactly the matched entry's URI, and no other URI
is ever handed to the launcher — in either variant. -/
theorem launcher_receives_matched_uri (l : List PDFFile)
    (lsaf : List (List Char)) (barcode : List Char)
    (fileExists : List Char → Bool) (launchOk granted : Bool) :
    (∀ f, findMatchingFile l barcode = some f → fileExists f.uri = true →
       (searchAndOpenPDF l barcode fileExists launchOk).1 = some f.uri) ∧
    (∀ u, (searchAndOpenPDF l barcode fileExists launchOk).1 = some u →
       ∃ f, findMatchingFile l barcode = some f ∧ u = f.uri ∧
         fileExists f.uri = true) ∧
    (∀ u, granted = true →
       (lsaf.filter (safMatchesBarcode barcode)).head? = some u →
       searchAndOpenPDFSaf granted lsaf barcode = some u) ∧
    (∀ u, searchAndOpenPDFSaf granted lsaf barcode = some u →
       (lsaf.filter (safMatchesBarcode barcode)).head? = some u) := by
  refine ⟨?_, ?_, ?_, ?_⟩
  · intro f hf hex
    unfold searchAndOpenPDF
    have hne : l.isEmpty = false := by
      cases l with
      | nil => rw [findMatchingFile, List.find?_nil] at hf; cases hf
      | cons a l => rfl
    rw [hne]
    simp only [Bool.false_eq_true, if_false, hf, hex, if_true]
  · intro u hu
    unfold searchAndOpenPDF at hu
    split at hu
    · cases hu
    · split at hu
      next f hf =>
        split at hu
        next hex =>
          injection hu with hu
          exact ⟨f, hf, hu.symm, hex⟩
        next => cases hu
      next => cases hu
  · intro u hg hu
    unfold searchAndOpenPDFSaf
    have hne : lsaf.isEmpty = false := by
      cases lsaf with
      | nil => cases hu
      | cons a l => rfl
    rw [hg, hne]
    simp only [Bool.not_true, Bool.false_or, Bool.false_eq_true, if_false]
    cases hfil : lsaf.filter (safMatchesBarcode barcode) with
    | nil => rw [hfil] at hu; cases hu
    | cons a t =>
      rw [hfil] at hu
      injection hu with hu
      rw [hu]
  · intro u hu
    unfold searchAndOpenPDFSaf at hu
    split at hu
    · cases hu
    · split at hu
      next f t hfil =>
        injection hu with hu
        rw [hfil, hu]
        rfl
      next => cases hu

theorem launcher_receives_matched_uri_witness :
    (searchAndOpenPDF [demoFile] demoKey (fun _ => true) true).1 =
      some demoFile.uri :=
  (launcher_receives_matched_uri [demoFile] [] demoKey
      (fun _ => true) true true).1 demoFile (by decide) rfl

/-- C6: a scan whose lookup-and-open sequence fails (no PDFs, no matching
entry, matched file gone, or the viewer launch throws) only alerts: the
`pdfFiles` list and the persisted serialization are bitwise the state they
were before the operation. -/
theorem failed_scan_preserves_index (st : SearchState) (barcode : List Char)
    (fileExists : List Char → Bool) (launchOk : Bool)
    (h : ((searchAndOpenStep st barcode fileExists launchOk).2).isOpened
          = false) :
    (searchAndOpenStep st barcode fileExists launchOk).1.pdfFiles
        = st.pdfFiles ∧
    (searchAndOpenStep st barcode fileExists launchOk).1.storage
        = st.storage := by
  clear h
  unfold searchAndOpenStep
  split <;> exact ⟨rfl, rfl⟩

theorem failed_scan_preserves_index_witness :
    (searchAndOpenStep ⟨[demoFile], none, false⟩ ['z'] (fun _ => true)
        true).1.pdfFiles = [demoFile] ∧
    (searchAndOpenStep ⟨[demoFile], none, false⟩ ['z'] (fun _ => true)
        true).1.storage = none :=
  failed_scan_preserves_index ⟨[demoFile], none, false⟩ ['z'] (fun _ => true)
    true (by decide)

/-- C8: the permission gate dominates: in every state in which camera
permission is not granted (`hasPermission` null or false), neither variant
renders a screen with the scan handler attached, so no scan handling, lookup
or launch can start. -/
theorem permission_gate_blocks_scan_handler (st : AppState)
    (stS : AppStateSaf) (h : st.hasPermission ≠ some true)
    (hS : stS.hasPermission ≠ some true) :
    scanHandlerAttached (render st) = false ∧
    scanHandlerAttached (renderSaf stS) = false := by
  constructor
  · unfold render
    split
    · rfl
    · cases hp : st.hasPermission with
      | none => rfl
      | some b =>
        cases b with
        | false => rfl
        | true => exact absurd hp h
  · unfold renderSaf
    split
    · rfl
    · cases hp : stS.hasPermission with
      | none => rfl
      | some b =>
        cases b with
        | false => rfl
        | true => exact absurd hp hS

theorem permission_gate_blocks_scan_handler_witness :
    scanHandlerAttached (render ⟨false, none, [demoFile], false, false⟩)
        = false ∧
    scanHandlerAttached (renderSaf ⟨false, some false,
        some ⟨true, ['d']⟩, false⟩) = false :=
  permission_gate_blocks_scan_handler ⟨false, none, [demoFile], false, false⟩
    ⟨false, some false, some ⟨true, ['d']⟩, false⟩ (by decide) (by decide)

/-- The directory listing used to exhibit the `loadPDFFilesFromDirectory`
slip: one PDF and one text file. -/
def safDemoListing : List (List Char) :=
  [['a', '.', 'p', 'd', 'f'], ['b', '.', 't', 'x', 't']]

/-- C2 (code bug): `loadPDFFilesFromDirectory` computes the `.pdf` filter
and logs its count, but stores the *unfiltered* listing in `pdfFiles`: on a
directory holding `a.pdf` and `b.txt`, the resulting index contains
`b.txt`, which does not end in `".pdf"`, while the log still reports one
PDF found. -/
theorem loadPDFFilesFromDirectory_stores_non_pdfs :
    (loadPDFFilesFromDirectory safDemoListing).1 = safDemoListing ∧
    ['b', '.', 't', 'x', 't'] ∈ (loadPDFFilesFromDirectory safDemoListing).1 ∧
    endsWith (lowerStr ['b', '.', 't', 'x', 't']) pdfSuffix = false ∧
    (loadPDFFilesFromDirectory safDemoListing).2 = 1 := by
  decide

theorem all_alnum_no_pdf_suffix {b : List Char}
    (hall : b.all isAlnumChar = true) :
    endsWith (lowerStr b) pdfSuffix = false := by
  cases hsuf : endsWith (lowerStr b) pdfSuffix with
  | false => rfl
  | true =>
    exfalso
    obtain ⟨r, hr⟩ := (endsWith_iff _ _).mp hsuf
    have hdot : '.' ∈ lowerStr b := by
      rw [hr]
      exact List.mem_append.mpr (Or.inr (by decide))
    obtain ⟨c, hc, hcl⟩ := List.mem_map.mp hdot
    have : c = '.' := lowerChar_eq_dot hcl
    subst this
    have := List.all_eq_true.mp hall '.' hc
    exact absurd this (by decide)

theorem processAssets_entries_valid (ex : List (List Char))
    (assets : List PickedAsset) :
    ∀ f ∈ (processAssets ex assets).1,
      extractBarcodeFromFilename f.name = some f.barcode := by
  induction assets with
  | nil => intro f hf; cases hf
  | cons a rest ih =>
    intro f hf
    unfold processAssets at hf
    split at hf
    · exact ih f hf
    · dsimp only at hf
      split at hf
      next b hb =>
        rcases List.mem_cons.mp hf with rfl | hf
        · exact hb
        · exact ih f hf
      next => exact ih f hf

theorem processAssets_invalid_count (ex : List (List Char))
    (assets : List PickedAsset) :
    (processAssets ex assets).2.2 = assets.countP (fun a =>
      !ex.contains a.uri &&
        (extractBarcodeFromFilename (assetFileName a)).isNone) := by
  induction assets with
  | nil => rfl
  | cons a rest ih =>
    unfold processAssets
    rw [List.countP_cons]
    cases hdup : ex.contains a.uri with
    | true => simp [hdup, ih]
    | false =>
      cases hx : extractBarcodeFromFilename (assetFileName a) with
      | none => simp [hdup, hx, ih]
      | some b => simp [hdup, hx, ih]

/-- C9: `extractBarcodeFromFilename` succeeds exactly on filenames whose
stem after removing one trailing case-insensitive `".pdf"` is a non-empty
alphanumeric string (and then returns that stem); consequently every entry
accepted by the add loop carries the alphanumeric stem of its filename as
its barcode, and the remaining non-duplicate assets are counted as
invalid. -/
theorem extract_barcode_characterization (fn : List Char)
    (ex : List (List Char)) (assets : List PickedAsset) :
    (∀ b, extractBarcodeFromFilename fn = some b ↔
       b ≠ [] ∧ b.all isAlnumChar = true ∧
         (fn = b ∨ ∃ ext, fn = b ++ ext ∧ lowerStr ext = pdfSuffix)) ∧
    (∀ f ∈ (processAssets ex assets).1,
       extractBarcodeFromFilename f.name = some f.barcode) ∧
    ((processAssets ex assets).2.2 = assets.countP (fun a =>
       !ex.contains a.uri &&
         (extractBarcodeFromFilename (assetFileName a)).isNone)) := by
  refine ⟨?_, processAssets_entries_valid ex assets,
    processAssets_invalid_count ex assets⟩
  intro b
  unfold extractBarcodeFromFilename replacePdfExt
  cases hsuf : endsWith (lowerStr fn) pdfSuffix with
  | true =>
    obtain ⟨r, hr⟩ := (endsWith_iff _ _).mp hsuf
    have hlen : fn.length = r.length + 4 := by
      have := congrArg List.length hr
      simpa [lowerStr, List.length_append, pdfSuffix] using this
    have hrl : fn.length - 4 = r.length := by omega
    have hext : lowerStr (fn.drop r.length) = pdfSuffix := by
      show List.map lowerChar (fn.drop r.length) = pdfSuffix
      rw [List.map_drop lowerChar fn r.length]
      have hr' : List.map lowerChar fn = r ++ pdfSuffix := hr
      rw [hr', List.drop_left]
    have hsplit : fn = fn.take r.length ++ fn.drop r.length :=
      (List.take_append_drop r.length fn).symm
    simp only [if_true]
    rw [hrl]
    constructor
    · intro hb
      split at hb
      next ht =>
        injection hb with hb
        subst hb
        obtain ⟨hne, hall⟩ := (testAlnum_iff _).mp ht
        exact ⟨hne, hall, Or.inr ⟨fn.drop r.length, hsplit, hext⟩⟩
      next => cases hb
    · rintro ⟨hne, hall, hfn | ⟨ext, hfn, hlow⟩⟩
      · subst hfn
        exact absurd hsuf (by rw [all_alnum_no_pdf_suffix hall]; decide)
      · have hextlen : ext.length = 4 := by
          have := congrArg List.length hlow
          simpa [lowerStr, pdfSuffix] using this
        have hbl : r.length = b.length := by
          have := congrArg List.length hfn
          simp [List.length_append, hextlen] at this
          omega
        rw [hbl, hfn, List.take_left]
        rw [if_pos ((testAlnum_iff b).mpr ⟨hne, hall⟩)]
  | false =>
    simp only [Bool.false_eq_true, if_false]
    constructor
    · intro hb
      split at hb
      next ht =>
        injection hb with hb
        subst hb
        obtain ⟨hne, hall⟩ := (testAlnum_iff _).mp ht
        exact ⟨hne, hall, Or.inl rfl⟩
      next => cases hb
    · rintro ⟨hne, hall, hfn | ⟨ext, hfn, hlow⟩⟩
      · subst hfn
        rw [if_pos ((testAlnum_iff fn).mpr ⟨hne, hall⟩)]
      · exfalso
        have : endsWith (lowerStr fn) pdfSuffix = true := by
          apply (endsWith_iff _ _).mpr
          refine ⟨lowerStr b, ?_⟩
          show List.map lowerChar fn = lowerStr b ++ pdfSuffix
          rw [hfn, List.map_append]
          exact congrArg (fun x => List.map lowerChar b ++ x) hlow
        rw [this] at hsuf
        cases hsuf

theorem extract_barcode_characterization_witness :
    extractBarcodeFromFilename
        ['a', 'B', '1', '2', '.', 'P', 'd', 'F'] = some ['a', 'B', '1', '2'] :=
  ((extract_barcode_characterization ['a', 'B', '1', '2', '.', 'P', 'd', 'F']
      [] []).1 ['a', 'B', '1', '2']).mpr
    ⟨by decide, by decide,
     Or.inr ⟨['.', 'P', 'd', 'F'], by decide, by decide⟩⟩

/-- A picked asset with a valid barcode name, used to exercise the add
loop. -/
def dupAsset : PickedAsset := ⟨some ['1', '.', 'p', 'd', 'f'], ['u'], some 0⟩

theorem extract_dupAsset :
    extractBarcodeFromFilename (assetFileName dupAsset) = some ['1'] := by
  decide

theorem processAssets_nil_replicate_length (n : Nat) :
    ((processAssets [] (List.replicate n dupAsset)).1).length = n := by
  induction n with
  | zero => rfl
  | succ n ih =>
    rw [List.replicate_succ]
    unfold processAssets
    simp only [List.contains_nil, Bool.false_eq_true, if_false, extract_dupAsset]
    simpa using ih

theorem addPDFFiles_nil_replicate_length (n : Nat) :
    (addPDFFiles [] (List.replicate n dupAsset)).length = n := by
  unfold addPDFFiles
  cases n with
  | zero => rfl
  | succ n =>
    have hlen := processAssets_nil_replicate_length (n + 1)
    have hne : (processAssets [] (List.replicate (n + 1) dupAsset)).1 ≠ [] := by
      intro hnil
      rw [hnil] at hlen
      cases hlen
    simp only [List.map_nil]
    rw [if_neg (by simpa [List.isEmpty_iff] using hne)]
    simpa using hlen

/-- C7 (counterexample): the claimed fixed bound of a few hundred entries
does not exist — a single add of 1000 picked files yields an index of 1000
entries. -/
theorem file_index_exceeds_three_hundred :
    300 < (addPDFFiles [] (List.replicate 1000 dupAsset)).length := by
  rw [addPDFFiles_nil_replicate_length]
  decide

/-- C7 (amended): no bound is enforced on the file index: each add appends
every accepted picked file, so every length is reachable. -/
theorem file_index_unbounded :
    ∀ n : Nat, ∃ assets : List PickedAsset,
      (addPDFFiles [] assets).length = n := by
  intro n
  exact ⟨List.replicate n dupAsset, addPDFFiles_nil_replicate_length n⟩

theorem processAssets_uris (ex : List (List Char))
    (assets : List PickedAsset) :
    List.Sublist ((processAssets ex assets).1.map PDFFile.uri)
        (assets.map PickedAsset.uri) ∧
    ∀ u ∈ (processAssets ex assets).1.map PDFFile.uri,
      ex.contains u = false := by
  induction assets with
  | nil => exact ⟨List.Sublist.refl [], by intro u hu; cases hu⟩
  | cons a rest ih =>
    unfold processAssets
    split
    next hdup =>
      refine ⟨ih.1.trans (List.sublist_cons_self _ _), ih.2⟩
    next hdup =>
      dsimp only
      split
      next b hb =>
        refine ⟨?_, ?_⟩
        · simpa using List.Sublist.cons₂ a.uri ih.1
        · intro u hu
          simp only [List.map_cons, List.mem_cons] at hu
          rcases hu with rfl | hu
          · have hc : ex.contains a.uri = false := by
              cases hcc : ex.contains a.uri with
              | false => rfl
              | true => exact absurd hcc hdup
            exact hc
          · exact ih.2 u (by simpa using hu)
      next hb =>
        refine ⟨ih.1.trans (List.sublist_cons_self _ _), ih.2⟩

/-- C10 (counterexample): `addPDFFiles` builds its duplicate-URI set once,
before the loop, so a batch containing the same asset twice is added twice:
from the empty list, picking `[dupAsset, dupAsset]` yields two entries
sharing one URI. -/
theorem addPDFFiles_duplicates_within_batch :
    (addPDFFiles [] [dupAsset, dupAsset]).length = 2 ∧
    ¬ ((addPDFFiles [] [dupAsset, dupAsset]).map PDFFile.uri).Nodup := by
  decide

/-- C10 (amended): `addPDFFiles` skips every picked asset whose URI is
already in the list, but does not deduplicate within one picked batch;
provided the batch's URIs are pairwise distinct, URI uniqueness of the
index is preserved.  `removePDFFile` removes exactly the entries carrying
the given URI, keeps the remaining entries in order (it yields a sublist),
and preserves URI uniqueness. -/
theorem uri_uniqueness_invariant (l : List PDFFile)
    (assets : List PickedAsset) (u : List Char) :
    ((l.map PDFFile.uri).Nodup → (assets.map PickedAsset.uri).Nodup →
       ((addPDFFiles l assets).map PDFFile.uri).Nodup) ∧
    (∀ f ∈ removePDFFile l u, f.uri ≠ u) ∧
    List.Sublist (removePDFFile l u) l ∧
    (∀ f ∈ l, f.uri ≠ u → f ∈ removePDFFile l u) ∧
    ((l.map PDFFile.uri).Nodup →
       ((removePDFFile l u).map PDFFile.uri).Nodup) := by
  refine ⟨?_, ?_, ?_, ?_, ?_⟩
  · intro hl ha
    unfold addPDFFiles
    dsimp only
    split
    next => exact hl
    next =>
      rw [List.map_append]
      rw [List.nodup_append]
      have huris := processAssets_uris (l.map PDFFile.uri) assets
      refine ⟨hl, huris.1.nodup ha, ?_⟩
      intro x hx hx'
      have hfalse := huris.2 x hx'
      have htrue : (List.map PDFFile.uri l).contains x = true :=
        List.elem_iff.mpr hx
      rw [htrue] at hfalse
      cases hfalse
  · intro f hf
    have := (List.mem_filter.mp hf).2
    exact bne_iff_ne.mp this
  · exact List.filter_sublist l
  · intro f hf hfu
    exact List.mem_filter.mpr ⟨hf, bne_iff_ne.mpr hfu⟩
  · intro hl
    exact ((List.filter_sublist l).map PDFFile.uri).nodup hl

theorem uri_uniqueness_invariant_witness :
    ((addPDFFiles [demoFile] [dupAsset]).map PDFFile.uri).Nodup ∧
    (∀ f ∈ removePDFFile [demoFile] ['u'], f.uri ≠ ['u']) :=
  ⟨(uri_uniqueness_invariant [demoFile] [dupAsset] ['u']).1
      (by decide) (by decide),
   (uri_uniqueness_invariant [demoFile] [dupAsset] ['u']).2.1⟩

end FactoryScanner
